import Mathlib

/-!
Verification development for the `jwt-crack` engine (package `engine`,
`internal/constants`, `internal/errors`, `pkg/config`).

Shallow embedding conventions:
* Go strings are modelled as Lean `String` where the source manipulates them
  as text, and as `List Nat` (UTF-8 bytes, each `< 256`) where the source
  indexes raw bytes (charset enumeration, HMAC keys/messages).
* `crypto/hmac` + `crypto/sha*` are external primitives: the digest function
  is an abstract parameter `hmac : HashFn → List Nat → List Nat → List Nat`
  (hash choice → key bytes → message bytes → digest bytes).
* `encoding/base64` RawURLEncoding is modelled executably below.
* `encoding/json` unmarshalling into the two-field `JWTHeader` struct is
  modelled for flat JSON objects with string scalar values; inputs outside
  this subset are conservatively mapped to `none` (see `jsonUnmarshalHeader`).
* Wall-clock fields of `Result` (Duration, Timestamp), the logger and the
  progress callback are side effects with no influence on the claims and are
  omitted.
* A Go `context.Context` is modelled as a monotone cancellation predicate on
  the engine's attempt counter: `ctx : Nat → Bool` answers the `ctx.Done()`
  poll at the loop head, as a function of the current counter value.
-/

namespace JwtCrack

/-! ### Bytes and UTF-8 (Go strings are UTF-8 byte sequences) -/

/-- UTF-8 encoding of one code point, as `Nat` byte values. Models how a Go
string stores a character. -/
def utf8Bytes (c : Char) : List Nat :=
  if c.toNat < 128 then [c.toNat]
  else if c.toNat < 2048 then [192 + c.toNat / 64, 128 + c.toNat % 64]
  else if c.toNat < 65536 then
    [224 + c.toNat / 4096, 128 + c.toNat / 64 % 64, 128 + c.toNat % 64]
  else
    [240 + c.toNat / 262144, 128 + c.toNat / 4096 % 64, 128 + c.toNat / 64 % 64,
      128 + c.toNat % 64]

/-- The bytes of a Go string: what `[]byte(s)`, `len(s)` and `s[i]` see. -/
def strBytes (s : String) : List Nat :=
  (s.data.map utf8Bytes).flatten

/-! ### base64url without padding (Go `base64.RawURLEncoding`) -/

def b64alphabet : List Char :=
  "ABCDEFGHIJKLMNOPQRSTUVWXYZabcdefghijklmnopqrstuvwxyz0123456789-_".data

def b64c (n : Nat) : Char := b64alphabet.getD n 'A'

/-- `EncodeToString`: 3 bytes → 4 chars; trailing 1 byte → 2 chars,
2 bytes → 3 chars; no padding. -/
def encodeChunks : List Nat → List Char
  | [] => []
  | [b0] => [b64c (b0 / 4), b64c (b0 % 4 * 16)]
  | [b0, b1] => [b64c (b0 / 4), b64c (b0 % 4 * 16 + b1 / 16), b64c (b1 % 16 * 4)]
  | b0 :: b1 :: b2 :: rest =>
      b64c (b0 / 4) :: b64c (b0 % 4 * 16 + b1 / 16) ::
      b64c (b1 % 16 * 4 + b2 / 64) :: b64c (b2 % 64) :: encodeChunks rest

def base64urlEncode (l : List Nat) : String := String.mk (encodeChunks l)

def charIndexAux (c : Char) : List Char → Nat → Option Nat
  | [], _ => none
  | d :: rest, i => if d = c then some i else charIndexAux c rest (i + 1)

/-- Index of a character in the base64url alphabet (`none` if absent). -/
def b64invOpt (c : Char) : Option Nat := charIndexAux c b64alphabet 0

/-- `RawURLEncoding.DecodeString` group decoding: a leftover group of one
character is corrupt input; trailing bits of short groups are ignored
(Go's default non-strict mode). -/
def b64decodeGroups : List Char → Option (List Nat)
  | [] => some []
  | [_] => none
  | [c0, c1] =>
      match b64invOpt c0, b64invOpt c1 with
      | some n0, some n1 => some [n0 * 4 + n1 / 16]
      | _, _ => none
  | [c0, c1, c2] =>
      match b64invOpt c0, b64invOpt c1, b64invOpt c2 with
      | some n0, some n1, some n2 => some [n0 * 4 + n1 / 16, n1 % 16 * 16 + n2 / 4]
      | _, _, _ => none
  | c0 :: c1 :: c2 :: c3 :: rest =>
      match b64invOpt c0, b64invOpt c1, b64invOpt c2, b64invOpt c3 with
      | some n0, some n1, some n2, some n3 =>
          (b64decodeGroups rest).map
            (fun bs => (n0 * 4 + n1 / 16) :: (n1 % 16 * 16 + n2 / 4) :: (n2 % 4 * 64 + n3) :: bs)
      | _, _, _, _ => none

/-- Go's base64 decoder skips CR and LF before decoding. -/
def b64urlDecode (s : String) : Option (List Nat) :=
  b64decodeGroups (s.data.filter (fun c => decide (c ≠ '\r') && decide (c ≠ '\n')))

/-! ### `strings.TrimSpace` (Latin-1 portion of `unicode.IsSpace`; the
claims only exercise ASCII whitespace) -/

def goIsSpace (c : Char) : Bool :=
  c = ' ' || c = '\t' || c = '\n' || c = Char.ofNat 11 || c = Char.ofNat 12 ||
  c = '\r' || c = Char.ofNat 133 || c = Char.ofNat 160

def trimSpace (s : String) : String :=
  String.mk (((s.data.dropWhile goIsSpace).reverse.dropWhile goIsSpace).reverse)

/-! ### `strings.Split(token, ".")` -/

def splitDotAux : List Char → List (List Char)
  | [] => [[]]
  | c :: rest =>
      let r := splitDotAux rest
      if c = '.' then [] :: r
      else
        match r with
        | [] => [[c]]
        | g :: gs => (c :: g) :: gs

/-- Models `strings.Split(s, ".")`. -/
def splitDot (s : String) : List String := (splitDotAux s.data).map String.mk

/-! ### Error model (`internal/errors` + the stdlib errors the engine wraps) -/

/-- Go error values reachable from the engine. `nilErr` stands for an absent
cause (Go `nil`); `jwtError` is `JWTCrackError{Type, Code, Message, Cause}`;
`wrapf` is `fmt.Errorf("...: %w", cause)`; `simple` is any other leaf error;
`ctxCanceled` is `context.Canceled`. -/
inductive GoError where
  | nilErr
  | jwtError (etype code msg : String) (cause : GoError)
  | wrapf (msg : String) (cause : GoError)
  | simple (msg : String)
  | ctxCanceled
  deriving Repr, DecidableEq

/-- `errors.Is(e, &JWTCrackError{Type: t, Code: c})`: walks the `Unwrap`
chain; `JWTCrackError.Is` compares Type and Code. -/
def errIsKind (t c : String) : GoError → Bool
  | .jwtError t' c' _ cause => (t' == t && c' == c) || errIsKind t c cause
  | .wrapf _ cause => errIsKind t c cause
  | _ => false

/-- `errors.Is(e, context.Canceled)` over the unwrap chain. -/
def errIsCanceled : GoError → Bool
  | .ctxCanceled => true
  | .jwtError _ _ _ cause => errIsCanceled cause
  | .wrapf _ cause => errIsCanceled cause
  | _ => false

/-! ### `encoding/json` unmarshalling into `JWTHeader`

`JWTHeader` has two string fields tagged `alg` and `typ`.  The model below
parses flat JSON objects whose member values are strings (for any key) —
duplicate keys keep the last value, unknown keys are ignored, a non-string
value for `alg`/`typ` is an unmarshalling error, exactly as in Go.  Inputs
outside this subset (nested objects/arrays, escapes, non-ASCII strings,
non-string scalars, non-object top level) are conservatively mapped to
`none`; no claim depends on them. -/

structure JWTHeader where
  alg : String := ""
  typ : String := ""
  deriving Repr, DecidableEq

def jsonWs (b : Nat) : Bool := b = 32 || b = 9 || b = 10 || b = 13

def skipWs (l : List Nat) : List Nat := l.dropWhile jsonWs

/-- Parse the remainder of a JSON string (opening quote already consumed);
ASCII, no escapes. Returns the string and the rest of the input. -/
def parseJsonString : List Nat → Option (List Char × List Nat)
  | [] => none
  | b :: rest =>
      if b = 34 then some ([], rest)
      else if b = 92 || b ≥ 128 || b < 32 then none
      else (parseJsonString rest).map (fun p => (Char.ofNat b :: p.1, p.2))

def setField (h : JWTHeader) (key : String) (v : String) : JWTHeader :=
  if key = "alg" then { h with alg := v }
  else if key = "typ" then { h with typ := v }
  else h

/-- One `"key": "value"` member plus the following separator, then the rest
of the object.  `fuel` bounds recursion by input length. -/
def parseMembers (fuel : Nat) (h : JWTHeader) (l : List Nat) : Option JWTHeader :=
  match fuel with
  | 0 => none
  | fuel + 1 =>
    match skipWs l with
    | 34 :: r1 =>
      match parseJsonString r1 with
      | none => none
      | some (key, r2) =>
        match skipWs r2 with
        | 58 :: r3 =>
          match skipWs r3 with
          | 34 :: r4 =>
            match parseJsonString r4 with
            | none => none
            | some (v, r5) =>
              let h' := setField h (String.mk key) (String.mk v)
              match skipWs r5 with
              | 44 :: r6 => parseMembers fuel h' r6
              | 125 :: r7 => if skipWs r7 = [] then some h' else none
              | _ => none
          | _ => none
        | _ => none
    | _ => none

/-- Models `json.Unmarshal(bytes, &JWTHeader{...})` on the subset described
above. -/
def jsonUnmarshalHeader (l : List Nat) : Option JWTHeader :=
  match skipWs l with
  | 123 :: r =>
      match skipWs r with
      | 125 :: r' => if skipWs r' = [] then some {} else none
      | _ => parseMembers (l.length + 1) {} r
  | _ => none

/-! ### `internal/constants` -/

def AlgorithmHS256 : String := "HS256"
def AlgorithmHS384 : String := "HS384"
def AlgorithmHS512 : String := "HS512"

def AttackModeSmart : String := "smart"
def AttackModeWordlist : String := "wordlist"
def AttackModeCharset : String := "charset"

def CharsetLowercase : String := "abcdefghijklmnopqrstuvwxyz"
def CharsetUppercase : String := "ABCDEFGHIJKLMNOPQRSTUVWXYZ"
def CharsetDigitsOnly : String := "0123456789"

def CharsetSpecial : String := "!@#$%^&*()-_=+[]\x7b\x7d|;:\x27\",.<>?/\\\x60"

def CharsetPrintableASCII : String :=
  " !\"#$%&\x27()*+,-./0123456789:;<=>?@ABCDEFGHIJKLMNOPQRSTUVWXYZ[\\]^_\x60abcdefghijklmnopqrstuvwxyz\x7b|\x7d~"

def CharsetHex : String := "0123456789abcdef"

def CharsetBase64 : String :=
  "ABCDEFGHIJKLMNOPQRSTUVWXYZabcdefghijklmnopqrstuvwxyz0123456789+/"

def CharsetAlphanumeric : String := CharsetLowercase ++ CharsetUppercase ++ CharsetDigitsOnly
def CharsetMixed : String := CharsetLowercase ++ CharsetUppercase

/-- `constants.Charsets` (a Go map; keys are unique so an association list is
an exact model). -/
def Charsets : List (String × String) :=
  [("digits", CharsetDigitsOnly),
   ("alpha", CharsetMixed),
   ("password", CharsetLowercase ++ CharsetUppercase ++ CharsetDigitsOnly ++ "!@#$%^&*"),
   ("full", CharsetLowercase ++ CharsetUppercase ++ CharsetDigitsOnly ++ CharsetSpecial),
   ("lowercase", CharsetLowercase),
   ("uppercase", CharsetUppercase),
   ("mixed", CharsetMixed),
   ("alphanumeric", CharsetAlphanumeric),
   ("special", CharsetSpecial),
   ("printable", CharsetPrintableASCII),
   ("hex", CharsetHex),
   ("base64", CharsetBase64)]

/-- `constants.Charsets[name]` map lookup. -/
def lookupCharset (s : String) : Option String :=
  (Charsets.find? (fun p => p.1 == s)).map (fun p => p.2)

/-- `constants.SmartPatterns`. -/
def SmartPatterns : List String :=
  ["secret", "password", "123456", "admin", "test", "key", "jwt", "token",
   "secretkey", "jwtkey", "mysecret", "supersecret", "qwerty", "password123",
   "your-256-bit-secret", "your-secret", "secret-key", "jwt-secret",
   "", "null", "undefined", "your_secret_here", "change_me", "default",
   "demo", "example", "sample", "temp", "temporary", "dev", "development",
   "prod", "production", "staging", "testing", "debug", "localhost"]

/-! ### `pkg/config` -/

/-- `config.Config` (fields the engine reads; durations/web limits that no
claim touches keep their Go zero values). -/
structure Config where
  token : String := ""
  wordlist : String := ""
  charset : String := ""
  lengthMin : Int := 0
  lengthMax : Int := 0
  threads : Int := 0
  performance : String := ""
  smart : Bool := false
  webPort : Int := 0
  deriving Repr, DecidableEq

/-- The four predefined names accepted by `Config.Validate`. -/
def configValidCharsets : List String := ["digits", "alpha", "password", "full"]

def validPerformance : List String := ["eco", "balanced", "performance", "maximum"]

/-- `Config.Validate`: returns the first failing check's message, `none` if
valid. (`len(c.Charset)` in Go is the byte length.) -/
def Config.Validate (c : Config) : Option String :=
  if c.token = "" then some "JWT token is required"
  else if c.lengthMin < 1 then some "minimum length must be at least 1"
  else if c.lengthMax < c.lengthMin then
    some "maximum length must be greater than or equal to minimum length"
  else if c.lengthMax > 20 then some "maximum length cannot exceed 20 characters"
  else if c.threads < 1 then some "thread count must be at least 1"
  else if c.threads > 64 then some "thread count cannot exceed 64"
  else if ¬ (c.performance ∈ validPerformance) then some "invalid performance level"
  else if c.charset = "" then some "charset cannot be empty"
  else if c.charset ∉ configValidCharsets ∧ (strBytes c.charset).length > 1000 then
    some "charset too long"
  else if c.webPort < 1 ∨ c.webPort > 65535 then
    some "web port must be between 1 and 65535"
  else none

/-- `Config.AdjustForPerformance` (`runtime.NumCPU()` is the parameter). -/
def adjustForPerformance (numCPU : Nat) (c : Config) : Config :=
  match c.performance with
  | "eco" => { c with threads := max 1 ((numCPU : Int) / 4) }
  | "balanced" => { c with threads := max 1 ((numCPU : Int) / 2) }
  | "performance" => { c with threads := (numCPU : Int) }
  | "maximum" => { c with threads := (numCPU : Int) * 2 }
  | _ => c

/-! ### The engine (`New`, `parseJWTHeader`, `verifySecret`) -/

/-- The hash function stored in `Engine.hashFunc`: `sha256.New`,
`sha512.New384` (the 384-bit truncated SHA-512 variant) or `sha512.New`. -/
inductive HashFn where
  | sha256
  | sha384
  | sha512
  deriving Repr, DecidableEq

structure Engine where
  config : Config
  jwtParts : List String
  algorithm : String
  hashFn : HashFn
  attempts : Nat
  deriving Repr, DecidableEq

/-- `Result` (Duration/Timestamp are wall-clock side effects, omitted).
`secret` is the byte string of the found candidate. -/
structure Result where
  success : Bool := false
  secret : List Nat := []
  algorithm : String := ""
  attempts : Nat := 0
  attackMode : String := ""
  deriving Repr, DecidableEq

/-- `parseJWTHeader`: base64url-decode the header segment, unmarshal the
JSON, map `alg` to a hash function. -/
def parseJWTHeader (headerPart : String) : Except GoError (String × HashFn) :=
  match b64urlDecode headerPart with
  | none => .error (.wrapf "failed to decode header" (.simple "illegal base64 data"))
  | some headerBytes =>
    match jsonUnmarshalHeader headerBytes with
    | none => .error (.wrapf "failed to parse header JSON" (.simple "invalid JSON"))
    | some header =>
      if header.alg = AlgorithmHS256 then .ok (header.alg, .sha256)
      else if header.alg = AlgorithmHS384 then .ok (header.alg, .sha384)
      else if header.alg = AlgorithmHS512 then .ok (header.alg, .sha512)
      else .error (.jwtError "algorithm" "UNSUPPORTED_ALGORITHM"
        ("unsupported algorithm: " ++ header.alg) .nilErr)

/-- `engine.New` (the logger is a side effect, omitted). -/
def New (numCPU : Nat) (cfg : Option Config) : Except GoError Engine :=
  match cfg with
  | none => .error (.jwtError "config" "CONFIG_VALIDATION" "configuration cannot be nil" .nilErr)
  | some cfg =>
    match cfg.Validate with
    | some msg => .error (.jwtError "config" "CONFIG_VALIDATION" "invalid configuration" (.simple msg))
    | none =>
      let parts := splitDot cfg.token
      if parts.length ≠ 3 then
        .error (.jwtError "validation" "INVALID_TOKEN" "JWT token must have 3 parts" .nilErr)
      else
        match parseJWTHeader (parts.getD 0 "") with
        | .error e => .error (.jwtError "validation" "INVALID_TOKEN" "failed to parse JWT header" e)
        | .ok (algorithm, hashFn) =>
          .ok { config := adjustForPerformance numCPU cfg
                jwtParts := parts
                algorithm := algorithm
                hashFn := hashFn
                attempts := 0 }

/-! ### Candidate verification and the three strategy loops

`hmac h key msg` abstracts `hmac.New(hashFunc, key); h.Write(msg); h.Sum(nil)`
from `crypto/hmac`.  `ctx` answers the `ctx.Done()` poll as a function of the
current attempt counter. -/

section Strategies

variable (hmac : HashFn → List Nat → List Nat → List Nat)

/-- `verifySecret`: HMAC the rejoined header+payload under the candidate key,
base64url-encode without padding, compare with the signature segment. -/
def verifySecret (e : Engine) (secret : List Nat) : Bool :=
  base64urlEncode
      (hmac e.hashFn secret
        (strBytes (e.jwtParts.getD 0 "" ++ "." ++ e.jwtParts.getD 1 ""))) ==
    e.jwtParts.getD 2 ""

/-- Strategy outcome: Go's `(*Result, error)` pair plus the engine's attempt
counter after the call. -/
structure StratOut where
  res : Option Result
  err : Option GoError
  attempts : Nat
  deriving Repr, DecidableEq

/-- `smartAttack`'s loop over the pattern list.  On cancellation the Go code
returns the zero-valued `result` (its `Attempts` field was never set). -/
def smartLoop (e : Engine) (ctx : Nat → Bool) : List String → Nat → StratOut
  | [], a => ⟨some { success := false, attempts := a }, none, a⟩
  | p :: rest, a =>
    if ctx a then ⟨some { success := false, attempts := 0 }, some .ctxCanceled, a⟩
    else
      let a' := a + 1
      if verifySecret hmac e (strBytes p) then
        ⟨some { success := true, secret := strBytes p, attempts := a' }, none, a'⟩
      else smartLoop e ctx rest a'

def smartAttack (e : Engine) (ctx : Nat → Bool) : StratOut :=
  smartLoop hmac e ctx SmartPatterns e.attempts

/-- `wordlistAttack`'s scan loop: trim each line, skip blank lines without
counting. On cancellation the Go code loads the counter into the result. -/
def wordlistLoop (e : Engine) (ctx : Nat → Bool) : List String → Nat → StratOut
  | [], a => ⟨some { success := false, attempts := a }, none, a⟩
  | line :: rest, a =>
    if ctx a then ⟨some { success := false, attempts := a }, some .ctxCanceled, a⟩
    else
      let word := trimSpace line
      if word = "" then wordlistLoop e ctx rest a
      else
        let a' := a + 1
        if verifySecret hmac e (strBytes word) then
          ⟨some { success := true, secret := strBytes word, attempts := a' }, none, a'⟩
        else wordlistLoop e ctx rest a'

/-- `wordlistAttack`: `fileLines` is the opened file's lines, `none` when
`os.Open` fails. -/
def wordlistAttack (e : Engine) (ctx : Nat → Bool) (fileLines : Option (List String)) :
    StratOut :=
  match fileLines with
  | none => ⟨none, some (.jwtError "file" "FILE_READ" "failed to open wordlist file" (.simple "open error")), e.attempts⟩
  | some lines => wordlistLoop hmac e ctx lines e.attempts

/-- The odometer increment on the reversed index list (the Go loop walks from
the last position towards position 0, carrying when a position reaches the
charset length). `none` = carry propagated past position 0. -/
def incAux (charsetLen : Nat) : List Nat → Option (List Nat)
  | [] => none
  | i :: rest =>
      if i + 1 ≥ charsetLen then (incAux charsetLen rest).map (fun r => 0 :: r)
      else some ((i + 1) :: rest)

/-- One odometer step on the index list (position 0 first, as in the code). -/
def odometerStep (charsetLen : Nat) (indices : List Nat) : Option (List Nat) :=
  (incAux charsetLen indices.reverse).map List.reverse

/-- Outcome of `bruteforceLength`: `(false, ctx.Err())`, `(true, nil)` with
the result written, or `(false, nil)`. -/
inductive BFOut where
  | cancelled (attempts : Nat)
  | found (r : Result) (attempts : Nat)
  | exhausted (attempts : Nat)
  deriving Repr, DecidableEq

/-- The body of `bruteforceLength`'s unbounded `for` loop.  `fuel` is a
termination bound only: started at `charsetLen ^ length` it is never
exhausted (the odometer carries out after exactly that many candidates). -/
def bfLoop (e : Engine) (ctx : Nat → Bool) (cs : List Nat) :
    Nat → List Nat → Nat → BFOut
  | 0, _, a => .exhausted a
  | fuel + 1, indices, a =>
    if ctx a then .cancelled a
    else
      let candidate := indices.map (fun i => cs.getD i 0)
      let a' := a + 1
      if verifySecret hmac e candidate then
        .found { success := true, secret := candidate, attempts := a' } a'
      else
        match odometerStep cs.length indices with
        | some next => bfLoop e ctx cs fuel next a'
        | none => .exhausted a'

/-- `bruteforceLength` for one length: all indices start at 0. -/
def bruteforceLength (e : Engine) (ctx : Nat → Bool) (cs : List Nat)
    (length : Nat) (a : Nat) : BFOut :=
  bfLoop hmac e ctx cs (cs.length ^ length) (List.replicate length 0) a

/-- Charset resolution in `charsetAttack`: predefined name, else the raw
string. -/
def resolveCharset (s : String) : String :=
  match lookupCharset s with
  | some predefined => predefined
  | none => s

/-- The `for length := LengthMin; length <= LengthMax; length++` values. -/
def lengthRange (lo hi : Int) : List Int :=
  (List.range (hi - lo + 1).toNat).map (fun i => lo + Int.ofNat i)

/-- The per-length iteration of `charsetAttack`: error aborts (`nil` result),
found returns the result, exhausted advances to the next length. -/
def lengthsLoop (e : Engine) (ctx : Nat → Bool) (cs : List Nat) :
    List Int → Nat → StratOut
  | [], a => ⟨some { success := false, attempts := a }, none, a⟩
  | len :: rest, a =>
    match bruteforceLength hmac e ctx cs len.toNat a with
    | .cancelled a' => ⟨none, some .ctxCanceled, a'⟩
    | .found r a' => ⟨some r, none, a'⟩
    | .exhausted a' => lengthsLoop e ctx cs rest a'

def charsetAttack (e : Engine) (ctx : Nat → Bool) : StratOut :=
  let charset := resolveCharset e.config.charset
  if charset = "" then
    ⟨none, some (.jwtError "validation" "INVALID_CHARSET" "charset cannot be empty" .nilErr),
      e.attempts⟩
  else
    lengthsLoop hmac e ctx (strBytes charset)
      (lengthRange e.config.lengthMin e.config.lengthMax) e.attempts

def getAttackMode (c : Config) : String :=
  if c.smart then AttackModeSmart
  else if c.wordlist ≠ "" then AttackModeWordlist
  else AttackModeCharset

/-- `Engine.Attack`: dispatch on mode; any strategy error is wrapped in an
`ATTACK_EXECUTION` attack error and no result is returned; otherwise the
result is stamped with algorithm and mode (duration/timestamp omitted). -/
def Attack (e : Engine) (ctx : Nat → Bool) (fileLines : Option (List String)) : StratOut :=
  let out :=
    if e.config.smart then smartAttack hmac e ctx
    else if e.config.wordlist ≠ "" then wordlistAttack hmac e ctx fileLines
    else charsetAttack hmac e ctx
  match out.err with
  | some err => ⟨none, some (.jwtError "attack" "ATTACK_EXECUTION" "attack failed" err), out.attempts⟩
  | none =>
    match out.res with
    | some r =>
        ⟨some { r with algorithm := e.algorithm, attackMode := getAttackMode e.config },
          none, out.attempts⟩
    | none => ⟨none, none, out.attempts⟩

end Strategies

/-- `GetStats`: current counter and mode name. -/
def GetStats (e : Engine) : Nat × String := (e.attempts, getAttackMode e.config)

/-! ### Specification-level definitions used by the theorems -/

/-- The length-`L` big-endian base-`K` digit string of `n` (most significant
first): the index vector the odometer holds after `n` increments. -/
def indicesOfNat (K L n : Nat) : List Nat :=
  match L with
  | 0 => []
  | L + 1 => indicesOfNat K L (n / K) ++ [n % K]

/-- The index vectors visited by `bruteforceLength`'s loop, from a given
start, bounded by `fuel`. -/
def odomList (K : Nat) : Nat → List Nat → List (List Nat)
  | 0, _ => []
  | fuel + 1, indices =>
      indices ::
        (match odometerStep K indices with
         | none => []
         | some next => odomList K fuel next)

/-- The candidates `bruteforceLength` generates for one length, in order. -/
def lengthCandidates (cs : List Nat) (L : Nat) : List (List Nat) :=
  (odomList cs.length (cs.length ^ L) (List.replicate L 0)).map
    (fun idx => idx.map (fun i => cs.getD i 0))

def runCands (verify : List Nat → Bool) : List (List Nat) → Nat → Option (List Nat) × Nat
  | [], a => (none, a)
  | c :: rest, a => if verify c then (some c, a + 1) else runCands verify rest (a + 1)

/-- Number of secrets a strategy tests on candidate list `cands`: all of them
if none verifies, one past the failing prefix otherwise. -/
def testedCount (verify : List Nat → Bool) (cands : List (List Nat)) : Nat :=
  min cands.length ((cands.takeWhile (fun c => ! verify c)).length + 1)

/-- The non-blank trimmed lines, as byte strings: the candidates the
dictionary strategy actually tests. -/
def wordlistCands (lines : List String) : List (List Nat) :=
  (((lines.map trimSpace).filter (fun w => w ≠ "")).map strBytes)

/-- The full candidate list of the charset strategy across its length range. -/
def charsetCandsList (cs : List Nat) (lens : List Int) : List (List Nat) :=
  (lens.map (fun len => lengthCandidates cs len.toNat)).flatten

/-- The counter value carried by a `bruteforceLength` outcome. -/
def BFOut.counter : BFOut → Nat
  | .cancelled a => a
  | .found _ a => a
  | .exhausted a => a

/-- A concrete stand-in digest function for witnesses: the digest of a key
is the key itself, clamped to bytes. -/
def hmacTest : HashFn → List Nat → List Nat → List Nat :=
  fun _ key _ => key.map (fun b => b % 256)

/-- A concrete engine whose token was "signed" (under `hmacTest`) with the
secret `[1, 2, 3]`. -/
def eRoundTrip : Engine :=
  { config := {}
    jwtParts := ["hh", "pp", base64urlEncode (hmacTest .sha256 [1, 2, 3] (strBytes "hh.pp"))]
    algorithm := "HS256"
    hashFn := .sha256
    attempts := 0 }

/-- A concrete engine in charset mode (charset `"01"`, lengths `[1,1]`) whose
signature segment no candidate can reproduce under `hmacTest`. -/
def eCharset : Engine :=
  { config := { token := "a.b.zzz", charset := "01", lengthMin := 1, lengthMax := 1,
                threads := 4, performance := "balanced", webPort := 8080 }
    jwtParts := ["a", "b", "zzz"]
    algorithm := "HS256"
    hashFn := .sha256
    attempts := 0 }

/-- A concrete engine in dictionary mode whose token was "signed" (under
`hmacTest`) with the secret `"secret"`. -/
def eWordlist : Engine :=
  { config := { token := "h.p.sig", wordlist := "words.txt", charset := "password",
                lengthMin := 1, lengthMax := 8, threads := 4,
                performance := "balanced", webPort := 8080 }
    jwtParts := ["h", "p", base64urlEncode (hmacTest .sha256 (strBytes "secret") (strBytes "h.p"))]
    algorithm := "HS256"
    hashFn := .sha256
    attempts := 0 }

/-- A configuration whose token has a valid header segment but a payload
segment (`###`) that is not base64url-decodable. -/
def cfgBadPayload : Config :=
  { token := "eyJhbGciOiJIUzI1NiIsInR5cCI6IkpXVCJ9.###.sig"
    charset := "digits", lengthMin := 1, lengthMax := 1, threads := 4,
    performance := "balanced", webPort := 8080 }

/-- The engine `New` constructs from `cfgBadPayload` with `numCPU = 4`. -/
def eNew : Engine :=
  { config := adjustForPerformance 4 cfgBadPayload
    jwtParts := splitDot cfgBadPayload.token
    algorithm := "HS256"
    hashFn := .sha256
    attempts := 0 }

/-- A configuration whose token declares `alg: RS256`. -/
def cfgRS256 : Config :=
  { token := base64urlEncode (strBytes "\x7b\"alg\":\"RS256\",\"typ\":\"JWT\"\x7d") ++ ".x.y"
    charset := "digits", lengthMin := 1, lengthMax := 1, threads := 4,
    performance := "balanced", webPort := 8080 }

/-! ## Proof layer -/

/-! ### base64url encoding is injective on byte lists -/

lemma b64invOpt_b64c {n : Nat} (h : n < 64) : b64invOpt (b64c n) = some n := by
  revert h
  revert n
  decide

lemma b64c_ne_cr (k : Nat) : b64c k ≠ '\r' := by
  unfold b64c
  rcases Nat.lt_or_ge k 64 with h | h
  · revert h
    revert k
    decide
  · rw [List.getD_eq_default]
    · decide
    · simpa using h

lemma b64c_ne_lf (k : Nat) : b64c k ≠ '\n' := by
  unfold b64c
  rcases Nat.lt_or_ge k 64 with h | h
  · revert h
    revert k
    decide
  · rw [List.getD_eq_default]
    · decide
    · simpa using h

lemma encodeChunks_no_crlf (l : List Nat) :
    (encodeChunks l).filter (fun c => decide (c ≠ '\r') && decide (c ≠ '\n')) =
      encodeChunks l := by
  induction l using encodeChunks.induct with
  | case1 => rfl
  | case2 b0 =>
      simp [encodeChunks, List.filter, b64c_ne_cr, b64c_ne_lf]
  | case3 b0 b1 =>
      simp [encodeChunks, List.filter, b64c_ne_cr, b64c_ne_lf]
  | case4 b0 b1 b2 rest ih =>
      simp [encodeChunks, List.filter_cons, b64c_ne_cr, b64c_ne_lf] at ih ⊢
      exact ih

lemma b64decodeGroups_encodeChunks (l : List Nat) (hv : ∀ b ∈ l, b < 256) :
    b64decodeGroups (encodeChunks l) = some l := by
  induction l using encodeChunks.induct with
  | case1 => rfl
  | case2 b0 =>
      have h0 : b0 < 256 := hv b0 (by simp)
      rw [encodeChunks, b64decodeGroups,
        b64invOpt_b64c (by omega), b64invOpt_b64c (by omega)]
      dsimp only
      have e : b0 / 4 * 4 + b0 % 4 * 16 / 16 = b0 := by omega
      rw [e]
  | case3 b0 b1 =>
      have h0 : b0 < 256 := hv b0 (by simp)
      have h1 : b1 < 256 := hv b1 (by simp)
      rw [encodeChunks, b64decodeGroups,
        b64invOpt_b64c (by omega), b64invOpt_b64c (by omega), b64invOpt_b64c (by omega)]
      dsimp only
      have e0 : b0 / 4 * 4 + (b0 % 4 * 16 + b1 / 16) / 16 = b0 := by omega
      have e1 : (b0 % 4 * 16 + b1 / 16) % 16 * 16 + b1 % 16 * 4 / 4 = b1 := by omega
      rw [e0, e1]
  | case4 b0 b1 b2 rest ih =>
      have h0 : b0 < 256 := hv b0 (by simp)
      have h1 : b1 < 256 := hv b1 (by simp)
      have h2 : b2 < 256 := hv b2 (by simp)
      have hrest : ∀ b ∈ rest, b < 256 := fun b hb => hv b (by simp [hb])
      rw [encodeChunks, b64decodeGroups,
        b64invOpt_b64c (by omega), b64invOpt_b64c (by omega),
        b64invOpt_b64c (by omega), b64invOpt_b64c (by omega),
        ih hrest]
      have e0 : b0 / 4 * 4 + (b0 % 4 * 16 + b1 / 16) / 16 = b0 := by omega
      have e1 : (b0 % 4 * 16 + b1 / 16) % 16 * 16 + (b1 % 16 * 4 + b2 / 64) / 4 = b1 := by
        omega
      have e2 : (b1 % 16 * 4 + b2 / 64) % 4 * 64 + b2 % 64 = b2 := by omega
      dsimp only [Option.map]
      rw [e0, e1, e2]

/-- Decoding inverts encoding on byte lists. -/
lemma b64urlDecode_encode (l : List Nat) (hv : ∀ b ∈ l, b < 256) :
    b64urlDecode (base64urlEncode l) = some l := by
  unfold b64urlDecode base64urlEncode
  rw [show (String.mk (encodeChunks l)).data = encodeChunks l from rfl]
  rw [encodeChunks_no_crlf, b64decodeGroups_encodeChunks l hv]

/-- `base64.RawURLEncoding.EncodeToString` is injective on byte lists. -/
lemma base64urlEncode_inj {l1 l2 : List Nat} (h1 : ∀ b ∈ l1, b < 256)
    (h2 : ∀ b ∈ l2, b < 256) (h : base64urlEncode l1 = base64urlEncode l2) :
    l1 = l2 := by
  have := b64urlDecode_encode l1 h1
  rw [h, b64urlDecode_encode l2 h2] at this
  exact (Option.some_inj.mp this).symm

/-! ### The odometer enumerates base-K numerals -/

lemma indicesOfNat_length (K L n : Nat) : (indicesOfNat K L n).length = L := by
  induction L generalizing n with
  | zero => rfl
  | succ L ih => simp [indicesOfNat, ih]

lemma indicesOfNat_lt (K L n : Nat) (hK : 1 ≤ K) :
    ∀ d ∈ indicesOfNat K L n, d < K := by
  induction L generalizing n with
  | zero => simp [indicesOfNat]
  | succ L ih =>
      intro d hd
      rw [indicesOfNat] at hd
      rcases List.mem_append.mp hd with h | h
      · exact ih (n / K) d h
      · rw [List.mem_singleton.mp h]
        exact Nat.mod_lt n hK

lemma indicesOfNat_zero (K L : Nat) : indicesOfNat K L 0 = List.replicate L 0 := by
  induction L with
  | zero => rfl
  | succ L ih =>
      rw [indicesOfNat, Nat.zero_div, Nat.zero_mod, ih, ← List.replicate_succ']

lemma indicesOfNat_max (K L : Nat) (hK : 1 ≤ K) :
    indicesOfNat K L (K ^ L - 1) = List.replicate L (K - 1) := by
  induction L with
  | zero => rfl
  | succ L ih =>
      have hM : 1 ≤ K ^ L := Nat.one_le_pow _ _ hK
      have hKM : K ≤ K * K ^ L := Nat.le_mul_of_pos_right K hM
      have hmul : K * (K ^ L - 1) = K * K ^ L - K := by
        rw [← Nat.pred_eq_sub_one, Nat.mul_pred]
      have hn : K ^ (L + 1) - 1 = (K - 1) + K * (K ^ L - 1) := by
        rw [hmul, pow_succ, Nat.mul_comm (K ^ L) K]
        omega
      rw [indicesOfNat, hn, Nat.add_mul_div_left _ _ (by omega : 0 < K),
        Nat.add_mul_mod_self_left, Nat.div_eq_of_lt (by omega),
        Nat.mod_eq_of_lt (by omega), Nat.zero_add, ih, ← List.replicate_succ']

lemma incAux_indicesOfNat (K L n : Nat) (hK : 1 ≤ K) (hn : n < K ^ L) :
    incAux K (indicesOfNat K L n).reverse =
      if n + 1 < K ^ L then some (indicesOfNat K L (n + 1)).reverse else none := by
  induction L generalizing n with
  | zero =>
      have : n = 0 := by simpa using hn
      subst this
      simp [indicesOfNat, incAux]
  | succ L ih =>
      have hq : n / K < K ^ L := by
        rw [Nat.div_lt_iff_lt_mul (by omega)]
        calc n < K ^ (L + 1) := hn
        _ = K ^ L * K := pow_succ K L
      have hr : n % K < K := Nat.mod_lt n hK
      have hdm : K * (n / K) + n % K = n := Nat.div_add_mod n K
      rw [indicesOfNat, List.reverse_append, List.reverse_singleton,
        List.singleton_append, incAux]
      have hKL : K ^ (L + 1) = K * K ^ L := by
        rw [pow_succ, Nat.mul_comm]
      by_cases hcase : n % K + 1 ≥ K
      · -- the last position carries
        have hrK : n % K = K - 1 := by omega
        have hn1 : n + 1 = K * (n / K + 1) := by
          rw [Nat.mul_add, Nat.mul_one]
          omega
        have hdiv : (n + 1) / K = n / K + 1 := by
          rw [hn1, Nat.mul_div_cancel_left _ (by omega : 0 < K)]
        have hmod : (n + 1) % K = 0 := by
          rw [hn1, Nat.mul_mod_right]
        rw [if_pos hcase, ih (n / K) hq]
        have hiff : n + 1 < K ^ (L + 1) ↔ n / K + 1 < K ^ L := by
          rw [hn1, hKL]
          exact mul_lt_mul_left (by omega : (0 : Nat) < K)
        by_cases hlt : n / K + 1 < K ^ L
        · rw [if_pos hlt, if_pos (hiff.mpr hlt)]
          simp only [Option.map_some']
          rw [indicesOfNat, hdiv, hmod, List.reverse_append, List.reverse_singleton,
            List.singleton_append]
        · rw [if_neg hlt, if_neg (fun hc => hlt (hiff.mp hc))]
          simp only [Option.map_none']
      · -- no carry: the last position just increments
        have hrlt : n % K + 1 < K := by omega
        have hn1 : n + 1 = (n % K + 1) + K * (n / K) := by omega
        have hdiv : (n + 1) / K = n / K := by
          rw [hn1, Nat.add_mul_div_left _ _ (by omega : 0 < K),
            Nat.div_eq_of_lt hrlt, Nat.zero_add]
        have hmod : (n + 1) % K = n % K + 1 := by
          rw [hn1, Nat.add_mul_mod_self_left, Nat.mod_eq_of_lt hrlt]
        have hlt : n + 1 < K ^ (L + 1) := by
          have hmul : K * (n / K + 1) = K * (n / K) + K := by
            rw [Nat.mul_add, Nat.mul_one]
          have h1 : n + 1 < K * (n / K + 1) := by omega
          have h2 : K * (n / K + 1) ≤ K * K ^ L :=
            Nat.mul_le_mul_left K (Nat.succ_le_of_lt hq)
          rw [hKL]
          omega
        rw [if_neg hcase, if_pos hlt]
        rw [indicesOfNat, hdiv, hmod, List.reverse_append, List.reverse_singleton,
          List.singleton_append]

lemma odometerStep_indicesOfNat (K L n : Nat) (hK : 1 ≤ K) (hn : n < K ^ L) :
    odometerStep K (indicesOfNat K L n) =
      if n + 1 < K ^ L then some (indicesOfNat K L (n + 1)) else none := by
  rw [odometerStep, incAux_indicesOfNat K L n hK hn]
  by_cases h : n + 1 < K ^ L
  · rw [if_pos h, if_pos h]
    simp only [Option.map_some', List.reverse_reverse]
  · rw [if_neg h, if_neg h]
    simp only [Option.map_none']

lemma odomList_indicesOfNat (K L : Nat) (hK : 1 ≤ K) :
    ∀ fuel n, n + fuel = K ^ L →
      odomList K fuel (indicesOfNat K L n) = (List.range' n fuel).map (indicesOfNat K L) := by
  intro fuel
  induction fuel with
  | zero => intro n _; rfl
  | succ fuel ih =>
      intro n hn
      rw [odomList, odometerStep_indicesOfNat K L n hK (by omega)]
      rcases Nat.eq_zero_or_pos fuel with hf | hf
      · subst hf
        rw [if_neg (by omega)]
        simp [List.range'_succ]
      · rw [if_pos (by omega)]
        dsimp only
        rw [ih (n + 1) (by omega), List.range'_succ, List.map_cons]

/-- The per-length enumeration is exactly the base-K numerals `0..K^L-1`. -/
lemma odomEnum_eq (K L : Nat) (hK : 1 ≤ K) :
    odomList K (K ^ L) (List.replicate L 0) = (List.range (K ^ L)).map (indicesOfNat K L) := by
  rw [← indicesOfNat_zero K L, odomList_indicesOfNat K L hK (K ^ L) 0 (by omega),
    List.range_eq_range']

/-! ### Lexicographic order of the enumeration -/

lemma lex_append_last {xs : List Nat} {a b : Nat} (h : a < b) :
    List.Lex (· < ·) (xs ++ [a]) (xs ++ [b]) := by
  induction xs with
  | nil => exact List.Lex.rel h
  | cons c xs ih => exact List.Lex.cons ih

lemma lex_append_of_lex {xs ys u v : List Nat}
    (h : List.Lex (· < ·) xs ys) (hlen : xs.length = ys.length) :
    List.Lex (· < ·) (xs ++ u) (ys ++ v) := by
  induction h with
  | nil => simp at hlen
  | @rel x xs' y ys' hr => exact List.Lex.rel hr
  | @cons x xs' ys' _ ih =>
      have : xs'.length = ys'.length := by simpa using hlen
      exact List.Lex.cons (ih this)

lemma indicesOfNat_lex (K L : Nat) (hK : 1 ≤ K) :
    ∀ m n, m < n → n < K ^ L →
      List.Lex (· < ·) (indicesOfNat K L m) (indicesOfNat K L n) := by
  induction L with
  | zero =>
      intro m n hmn hn
      simp [pow_zero] at hn
      omega
  | succ L ih =>
      intro m n hmn hn
      have hq : n / K < K ^ L := by
        rw [Nat.div_lt_iff_lt_mul (by omega)]
        calc n < K ^ (L + 1) := hn
        _ = K ^ L * K := pow_succ K L
      have hqle : m / K ≤ n / K := Nat.div_le_div_right (by omega)
      rw [indicesOfNat, indicesOfNat]
      rcases Nat.lt_or_ge (m / K) (n / K) with hlt | hge
      · exact lex_append_of_lex (ih (m / K) (n / K) hlt hq)
          (by rw [indicesOfNat_length, indicesOfNat_length])
      · have heq : m / K = n / K := by omega
        rw [heq]
        have hdm : K * (m / K) + m % K = m := Nat.div_add_mod m K
        have hdn : K * (n / K) + n % K = n := Nat.div_add_mod n K
        rw [heq] at hdm
        have : m % K < n % K := by omega
        exact lex_append_last this

lemma lex_irrefl (l : List Nat) : ¬ List.Lex (· < ·) l l := by
  induction l with
  | nil => intro h; cases h
  | cons a l ih =>
      intro h
      cases h with
      | cons h => exact ih h
      | rel h => omega

/-- The index vectors of one length are pairwise strictly increasing in
lexicographic order (hence pairwise distinct). -/
lemma odomEnum_pairwise_lex (K L : Nat) (hK : 1 ≤ K) :
    List.Pairwise (List.Lex (· < ·)) (odomList K (K ^ L) (List.replicate L 0)) := by
  rw [odomEnum_eq K L hK, List.pairwise_map]
  have := List.pairwise_lt_range (K ^ L)
  refine this.imp_of_mem ?_
  intro m n hm hn hmn
  exact indicesOfNat_lex K L hK m n hmn (List.mem_range.mp hn)

lemma odomEnum_nodup (K L : Nat) (hK : 1 ≤ K) :
    (odomList K (K ^ L) (List.replicate L 0)).Nodup := by
  refine (odomEnum_pairwise_lex K L hK).imp ?_
  intro a b h
  intro he
  subst he
  exact lex_irrefl a h

lemma odomEnum_length (K L : Nat) (hK : 1 ≤ K) :
    (odomList K (K ^ L) (List.replicate L 0)).length = K ^ L := by
  rw [odomEnum_eq K L hK, List.length_map, List.length_range]

lemma odomEnum_head (K L : Nat) (hK : 1 ≤ K) :
    (odomList K (K ^ L) (List.replicate L 0)).head? = some (List.replicate L 0) := by
  rw [odomEnum_eq K L hK]
  have h1 : 1 ≤ K ^ L := Nat.one_le_pow _ _ hK
  obtain ⟨f, hf⟩ : ∃ f, K ^ L = f + 1 := ⟨K ^ L - 1, by omega⟩
  rw [hf, List.range_succ_eq_map]
  rw [List.map_cons, List.head?_cons, indicesOfNat_zero]

lemma odomEnum_getLast (K L : Nat) (hK : 1 ≤ K) :
    (odomList K (K ^ L) (List.replicate L 0)).getLast? =
      some (List.replicate L (K - 1)) := by
  rw [odomEnum_eq K L hK]
  have h1 : 1 ≤ K ^ L := Nat.one_le_pow _ _ hK
  obtain ⟨f, hf⟩ : ∃ f, K ^ L = f + 1 := ⟨K ^ L - 1, by omega⟩
  rw [hf, List.range_succ, List.map_append, List.map_singleton,
    List.getLast?_concat]
  have : f = K ^ L - 1 := by omega
  rw [this, indicesOfNat_max K L hK]

/-- Every index the odometer visits is a valid charset position. -/
lemma odomEnum_mem_lt (K L : Nat) (hK : 1 ≤ K) :
    ∀ idx ∈ odomList K (K ^ L) (List.replicate L 0), ∀ i ∈ idx, i < K := by
  rw [odomEnum_eq K L hK]
  intro idx hidx i hi
  obtain ⟨n, _, hn⟩ := List.mem_map.mp hidx
  subst hn
  exact indicesOfNat_lt K L n hK i hi

lemma odomEnum_mem_length (K L : Nat) (hK : 1 ≤ K) :
    ∀ idx ∈ odomList K (K ^ L) (List.replicate L 0), idx.length = L := by
  rw [odomEnum_eq K L hK]
  intro idx hidx
  obtain ⟨n, _, hn⟩ := List.mem_map.mp hidx
  subst hn
  exact indicesOfNat_length K L n

/-! ### A specification of the shared outer-loop contract

`runCands` is the specification all three strategy loops refine when the
context is never cancelled: test candidates in order, one counter increment
per candidate, stop at the first match. -/

lemma runCands_attempts (verify : List Nat → Bool) (cands : List (List Nat)) (a : Nat) :
    (runCands verify cands a).2 = a + testedCount verify cands := by
  induction cands generalizing a with
  | nil => simp [runCands, testedCount]
  | cons c rest ih =>
      rw [runCands]
      by_cases h : verify c
      · simp [h, testedCount, List.takeWhile_cons, Nat.succ_min_succ]
      · rw [if_neg h, ih]
        simp only [testedCount, List.takeWhile_cons, List.length_cons]
        rw [if_pos (by simp [h])]
        simp only [List.length_cons]
        omega

lemma runCands_none (verify : List Nat → Bool) (cands : List (List Nat)) (a : Nat)
    (h : ∀ c ∈ cands, verify c = false) :
    runCands verify cands a = (none, a + cands.length) := by
  induction cands generalizing a with
  | nil => simp [runCands]
  | cons c rest ih =>
      rw [runCands, if_neg (by simp [h c (by simp)])]
      rw [ih (a + 1) (fun c hc => h c (by simp [hc]))]
      simp only [List.length_cons]
      rw [Nat.add_assoc, Nat.add_comm 1 rest.length]

lemma runCands_append (verify : List Nat → Bool) (xs ys : List (List Nat)) (a : Nat) :
    runCands verify (xs ++ ys) a =
      match runCands verify xs a with
      | (some c, a') => (some c, a')
      | (none, a') => runCands verify ys a' := by
  induction xs generalizing a with
  | nil => simp [runCands]
  | cons c rest ih =>
      rw [List.cons_append, runCands, runCands]
      by_cases h : verify c
      · rw [if_pos h, if_pos h]
      · rw [if_neg h, if_neg h, ih]

lemma runCands_le (verify : List Nat → Bool) (cands : List (List Nat)) (a : Nat) :
    a ≤ (runCands verify cands a).2 := by
  induction cands generalizing a with
  | nil => simp [runCands]
  | cons c rest ih =>
      rw [runCands]
      by_cases h : verify c
      · simp [h]
      · rw [if_neg h]
        exact Nat.le_trans (by omega) (ih (a + 1))

section StrategyRefinement

variable (hmac : HashFn → List Nat → List Nat → List Nat)

/-- With no cancellation, the curated-pattern loop is `runCands` over the
pattern list. -/
lemma smartLoop_runCands (e : Engine) (ctx : Nat → Bool) (hnc : ∀ n, ctx n = false)
    (ps : List String) (a : Nat) :
    smartLoop hmac e ctx ps a =
      match runCands (verifySecret hmac e) (ps.map strBytes) a with
      | (some c, a') => ⟨some { success := true, secret := c, attempts := a' }, none, a'⟩
      | (none, a') => ⟨some { success := false, attempts := a' }, none, a'⟩ := by
  induction ps generalizing a with
  | nil => simp [smartLoop, runCands]
  | cons p rest ih =>
      rw [smartLoop, List.map_cons, runCands, hnc, if_neg (by simp)]
      by_cases h : verifySecret hmac e (strBytes p)
      · rw [if_pos h, if_pos h]
      · rw [if_neg h, if_neg h, ih]

/-- With no cancellation, the dictionary loop is `runCands` over the trimmed
non-blank lines: blank lines are skipped without counting. -/
lemma wordlistLoop_runCands (e : Engine) (ctx : Nat → Bool) (hnc : ∀ n, ctx n = false)
    (lines : List String) (a : Nat) :
    wordlistLoop hmac e ctx lines a =
      match runCands (verifySecret hmac e) (wordlistCands lines) a with
      | (some c, a') => ⟨some { success := true, secret := c, attempts := a' }, none, a'⟩
      | (none, a') => ⟨some { success := false, attempts := a' }, none, a'⟩ := by
  induction lines generalizing a with
  | nil => simp [wordlistLoop, wordlistCands, runCands]
  | cons line rest ih =>
      rw [wordlistLoop, hnc, if_neg (by simp)]
      by_cases hb : trimSpace line = ""
      · rw [if_pos hb]
        have : wordlistCands (line :: rest) = wordlistCands rest := by
          simp [wordlistCands, List.filter_cons, hb]
        rw [this]
        exact ih a
      · rw [if_neg hb]
        have : wordlistCands (line :: rest) =
            strBytes (trimSpace line) :: wordlistCands rest := by
          simp [wordlistCands, List.filter_cons, hb]
        rw [this, runCands]
        by_cases h : verifySecret hmac e (strBytes (trimSpace line))
        · rw [if_pos h, if_pos h]
        · rw [if_neg h, if_neg h, ih]

/-- With no cancellation, `bruteforceLength`'s loop is `runCands` over the
odometer's candidate sequence. -/
lemma bfLoop_runCands (e : Engine) (ctx : Nat → Bool) (hnc : ∀ n, ctx n = false)
    (cs : List Nat) (fuel : Nat) (indices : List Nat) (a : Nat) :
    bfLoop hmac e ctx cs fuel indices a =
      match runCands (verifySecret hmac e)
          ((odomList cs.length fuel indices).map (fun idx => idx.map (fun i => cs.getD i 0))) a with
      | (some c, a') => .found { success := true, secret := c, attempts := a' } a'
      | (none, a') => .exhausted a' := by
  induction fuel generalizing indices a with
  | zero => simp [bfLoop, odomList, runCands]
  | succ fuel ih =>
      rw [bfLoop, hnc, if_neg (by simp), odomList, List.map_cons, runCands]
      by_cases h : verifySecret hmac e (indices.map (fun i => cs.getD i 0))
      · simp only [h, if_true]
      · rcases hstep : odometerStep cs.length indices with _ | next
        · rw [if_neg h, if_neg h]
          rfl
        · rw [if_neg h, if_neg h]
          exact ih next (a + 1)

/-- With no cancellation, the per-length iteration of `charsetAttack` is
`runCands` over the concatenated per-length candidate lists. -/
lemma lengthsLoop_runCands (e : Engine) (ctx : Nat → Bool) (hnc : ∀ n, ctx n = false)
    (cs : List Nat) (lens : List Int) (a : Nat) :
    lengthsLoop hmac e ctx cs lens a =
      match runCands (verifySecret hmac e) (charsetCandsList cs lens) a with
      | (some c, a') => ⟨some { success := true, secret := c, attempts := a' }, none, a'⟩
      | (none, a') => ⟨some { success := false, attempts := a' }, none, a'⟩ := by
  induction lens generalizing a with
  | nil => simp [lengthsLoop, charsetCandsList, runCands]
  | cons len rest ih =>
      rw [lengthsLoop, bruteforceLength, bfLoop_runCands hmac e ctx hnc]
      have hsplit : charsetCandsList cs (len :: rest) =
          lengthCandidates cs len.toNat ++ charsetCandsList cs rest := by
        simp [charsetCandsList]
      rw [hsplit, runCands_append]
      rcases hrun : runCands (verifySecret hmac e) (lengthCandidates cs len.toNat) a with ⟨found, a'⟩
      rcases found with _ | c
      · simp only [lengthCandidates] at hrun
        rw [hrun]
        exact ih a'
      · simp only [lengthCandidates] at hrun
        rw [hrun]

end StrategyRefinement

/-! ### Counter monotonicity, error shapes, inversion helpers -/

section MoreLemmas

variable (hmac : HashFn → List Nat → List Nat → List Nat)

lemma smartLoop_le (e : Engine) (ctx : Nat → Bool) (ps : List String) (a : Nat) :
    a ≤ (smartLoop hmac e ctx ps a).attempts := by
  induction ps generalizing a with
  | nil => simp [smartLoop]
  | cons p rest ih =>
      rw [smartLoop]
      by_cases hc : ctx a
      · simp [hc]
      · rw [if_neg (by simp [hc])]
        by_cases h : verifySecret hmac e (strBytes p)
        · simp [h]
        · rw [if_neg h]
          exact Nat.le_trans (by omega) (ih (a + 1))

lemma wordlistLoop_le (e : Engine) (ctx : Nat → Bool) (lines : List String) (a : Nat) :
    a ≤ (wordlistLoop hmac e ctx lines a).attempts := by
  induction lines generalizing a with
  | nil => simp [wordlistLoop]
  | cons line rest ih =>
      rw [wordlistLoop]
      by_cases hc : ctx a
      · simp [hc]
      · rw [if_neg (by simp [hc])]
        by_cases hb : trimSpace line = ""
        · rw [if_pos hb]
          exact ih a
        · rw [if_neg hb]
          by_cases h : verifySecret hmac e (strBytes (trimSpace line))
          · simp [h]
          · rw [if_neg h]
            exact Nat.le_trans (by omega) (ih (a + 1))

lemma bfLoop_le (e : Engine) (ctx : Nat → Bool) (cs : List Nat)
    (fuel : Nat) (indices : List Nat) (a : Nat) :
    a ≤ (bfLoop hmac e ctx cs fuel indices a).counter := by
  induction fuel generalizing indices a with
  | zero => simp [bfLoop, BFOut.counter]
  | succ fuel ih =>
      rw [bfLoop]
      by_cases hc : ctx a
      · simp [hc, BFOut.counter]
      · rw [if_neg (by simp [hc])]
        by_cases h : verifySecret hmac e (indices.map (fun i => cs.getD i 0))
        · rw [if_pos h]
          simp [BFOut.counter]
        · rw [if_neg h]
          rcases hstep : odometerStep cs.length indices with _ | next
          · simp [BFOut.counter]
          · exact Nat.le_trans (by omega) (ih next (a + 1))

lemma lengthsLoop_le (e : Engine) (ctx : Nat → Bool) (cs : List Nat)
    (lens : List Int) (a : Nat) :
    a ≤ (lengthsLoop hmac e ctx cs lens a).attempts := by
  induction lens generalizing a with
  | nil => simp [lengthsLoop]
  | cons len rest ih =>
      rw [lengthsLoop]
      have hbf : a ≤ (bruteforceLength hmac e ctx cs len.toNat a).counter :=
        bfLoop_le hmac e ctx cs (cs.length ^ len.toNat) (List.replicate len.toNat 0) a
      rcases hcase : bruteforceLength hmac e ctx cs len.toNat a with ⟨a'⟩ | ⟨r, a'⟩ | ⟨a'⟩ <;>
        rw [hcase] at hbf
      · simpa [BFOut.counter] using hbf
      · simpa [BFOut.counter] using hbf
      · simp only [BFOut.counter] at hbf
        exact Nat.le_trans hbf (ih a')

lemma charsetAttack_le (e : Engine) (ctx : Nat → Bool) :
    e.attempts ≤ (charsetAttack hmac e ctx).attempts := by
  rw [charsetAttack]
  by_cases h : resolveCharset e.config.charset = ""
  · simp [h]
  · rw [if_neg h]
    exact lengthsLoop_le hmac e ctx _ _ _

lemma Attack_le (e : Engine) (ctx : Nat → Bool) (fileLines : Option (List String)) :
    e.attempts ≤ (Attack hmac e ctx fileLines).attempts := by
  rw [Attack]
  have hout : e.attempts ≤
      (if e.config.smart then smartAttack hmac e ctx
       else if e.config.wordlist ≠ "" then wordlistAttack hmac e ctx fileLines
       else charsetAttack hmac e ctx).attempts := by
    by_cases hs : e.config.smart
    · rw [if_pos hs]
      exact smartLoop_le hmac e ctx _ _
    · rw [if_neg hs]
      by_cases hw : e.config.wordlist ≠ ""
      · rw [if_pos hw]
        rcases fileLines with _ | lines
        · exact Nat.le_refl _
        · exact wordlistLoop_le hmac e ctx _ _
      · rw [if_neg hw]
        exact charsetAttack_le hmac e ctx
  rcases hres : (if e.config.smart then smartAttack hmac e ctx
      else if e.config.wordlist ≠ "" then wordlistAttack hmac e ctx fileLines
      else charsetAttack hmac e ctx) with ⟨res, err, a⟩
  rw [hres] at hout
  rcases err with _ | err
  · rcases res with _ | r <;> simpa using hout
  · simpa using hout

/-- The per-length loop can only fail with the cancellation error. -/
lemma lengthsLoop_err (e : Engine) (ctx : Nat → Bool) (cs : List Nat)
    (lens : List Int) (a : Nat) :
    (lengthsLoop hmac e ctx cs lens a).err = none ∨
      (lengthsLoop hmac e ctx cs lens a).err = some .ctxCanceled := by
  induction lens generalizing a with
  | nil => simp [lengthsLoop]
  | cons len rest ih =>
      rw [lengthsLoop]
      rcases hcase : bruteforceLength hmac e ctx cs len.toNat a with ⟨a'⟩ | ⟨r, a'⟩ | ⟨a'⟩
      · right
        rfl
      · left
        rfl
      · exact ih a'

end MoreLemmas

/-- `New` only constructs engines with a zeroed attempt counter. -/
lemma New_ok_attempts (numCPU : Nat) (cfg : Option Config) (e : Engine)
    (h : New numCPU cfg = .ok e) : e.attempts = 0 := by
  unfold New at h
  split at h
  · simp at h
  · split at h
    · simp at h
    · dsimp only at h
      split at h
      · simp at h
      · split at h
        · simp at h
        · injection h with he
          rw [← he]

/-- A non-empty Go string has at least one byte. -/
lemma utf8Bytes_ne_nil (c : Char) : utf8Bytes c ≠ [] := by
  unfold utf8Bytes
  split
  · simp
  · split
    · simp
    · split <;> simp

lemma strBytes_length_pos (s : String) (h : s ≠ "") : 1 ≤ (strBytes s).length := by
  rcases s with ⟨data⟩
  rcases data with _ | ⟨c, rest⟩
  · exact absurd rfl h
  · rw [strBytes]
    simp only [List.map_cons, List.flatten_cons, List.length_append]
    have := utf8Bytes_ne_nil c
    have : 1 ≤ (utf8Bytes c).length := by
      rcases hu : utf8Bytes c with _ | _
      · exact absurd hu this
      · simp
    omega

lemma lengthRange_self (l : Int) : lengthRange l l = [l] := by
  unfold lengthRange
  have : (l - l + 1).toNat = 1 := by omega
  rw [this]
  simp [List.range_succ]


/-! ## Claim theorems -/

/-- **C1** — Round-trip verification: for every engine (hence for each of the
three HMAC algorithms its `hashFn` may hold) whose signature segment is the
unpadded base64url encoding of the HMAC digest of
`jwtParts[0] ++ "." ++ jwtParts[1]` under key `S`, `verifySecret` returns
`true` on `S`, and returns `false` on every candidate whose HMAC digest over
the same message differs from that of `S`. -/
theorem C1_round_trip_verification (hmac : HashFn → List Nat → List Nat → List Nat)
    (e : Engine) (S : List Nat)
    (hsig : e.jwtParts.getD 2 "" =
      base64urlEncode (hmac e.hashFn S
        (strBytes (e.jwtParts.getD 0 "" ++ "." ++ e.jwtParts.getD 1 ""))))
    (hvS : ∀ b ∈ hmac e.hashFn S
      (strBytes (e.jwtParts.getD 0 "" ++ "." ++ e.jwtParts.getD 1 "")), b < 256) :
    verifySecret hmac e S = true ∧
    ∀ S' : List Nat,
      (∀ b ∈ hmac e.hashFn S'
        (strBytes (e.jwtParts.getD 0 "" ++ "." ++ e.jwtParts.getD 1 "")), b < 256) →
      hmac e.hashFn S' (strBytes (e.jwtParts.getD 0 "" ++ "." ++ e.jwtParts.getD 1 "")) ≠
        hmac e.hashFn S (strBytes (e.jwtParts.getD 0 "" ++ "." ++ e.jwtParts.getD 1 "")) →
      verifySecret hmac e S' = false := by
  constructor
  · rw [verifySecret, hsig]
    exact beq_self_eq_true _
  · intro S' hvS' hne
    rw [verifySecret, hsig]
    rw [beq_eq_false_iff_ne]
    intro hcontra
    exact hne (base64urlEncode_inj hvS' hvS hcontra)

/-- Witness for C1 at a concrete engine: the signing secret `[1,2,3]`
verifies, a candidate with a different digest does not. -/
theorem C1_round_trip_verification_witness :
    verifySecret hmacTest eRoundTrip [1, 2, 3] = true ∧
    verifySecret hmacTest eRoundTrip [9] = false := by
  have h := C1_round_trip_verification hmacTest eRoundTrip [1, 2, 3]
    (by decide) (by decide)
  exact ⟨h.1, h.2 [9] (by decide) (by decide)⟩

/-- Indexing a duplicate-free charset is injective on valid index vectors. -/
lemma map_getD_inj (cs : List Nat) (hnd : cs.Nodup) :
    ∀ (i1 i2 : List Nat), (∀ i ∈ i1, i < cs.length) → (∀ i ∈ i2, i < cs.length) →
      i1.map (fun i => cs.getD i 0) = i2.map (fun i => cs.getD i 0) → i1 = i2 := by
  intro i1
  induction i1 with
  | nil =>
      intro i2 _ _ h
      cases i2 with
      | nil => rfl
      | cons y ys => simp at h
  | cons x xs ih =>
      intro i2 h1 h2 h
      cases i2 with
      | nil => simp at h
      | cons y ys =>
          simp only [List.map_cons, List.cons.injEq] at h
          have hx : x < cs.length := h1 x (by simp)
          have hy : y < cs.length := h2 y (by simp)
          have hget : cs[x] = cs[y] := by
            rw [← List.getD_eq_getElem cs 0 hx, ← List.getD_eq_getElem cs 0 hy]
            exact h.1
          have hxy : x = y := (hnd.getElem_inj_iff).mp hget
          rw [hxy, ih ys (fun i hi => h1 i (by simp [hi])) (fun i hi => h2 i (by simp [hi])) h.2]

lemma lengthCandidates_nodup (cs : List Nat) (L : Nat) (hK : 1 ≤ cs.length)
    (hnd : cs.Nodup) : (lengthCandidates cs L).Nodup := by
  rw [lengthCandidates]
  have hpw : List.Pairwise (fun i1 i2 => i1.map (fun i => cs.getD i 0) ≠ i2.map (fun i => cs.getD i 0))
      (odomList cs.length (cs.length ^ L) (List.replicate L 0)) := by
    refine (odomEnum_pairwise_lex cs.length L hK).imp_of_mem ?_
    intro i1 i2 hm1 hm2 hlex heq
    have h1 := odomEnum_mem_lt cs.length L hK i1 hm1
    have h2 := odomEnum_mem_lt cs.length L hK i2 hm2
    have := map_getD_inj cs hnd i1 i2 h1 h2 heq
    subst this
    exact lex_irrefl i1 hlex
  exact List.pairwise_map.mpr hpw

/-- **C2** — Odometer correctness: for a duplicate-free non-empty alphabet of
size `K` and any length `L ≥ 1`, the per-length loop's candidate sequence has
exactly `K ^ L` distinct members, the index vectors are strictly increasing
in lexicographic order, the first candidate is the all-first-character string
and the last the all-last-character string, one odometer step (increment the
last position, carry into preceding positions at `K`) takes the `n`-th index
vector to the `n+1`-st, and the step after the last vector carries out past
position 0, ending the length. -/
theorem C2_odometer_correctness (cs : List Nat) (L : Nat)
    (hK : 1 ≤ cs.length) (hL : 1 ≤ L) (hnd : cs.Nodup) :
    (lengthCandidates cs L).length = cs.length ^ L ∧
    (lengthCandidates cs L).Nodup ∧
    List.Pairwise (List.Lex (· < ·))
      (odomList cs.length (cs.length ^ L) (List.replicate L 0)) ∧
    (lengthCandidates cs L).head? = some (List.replicate L (cs.getD 0 0)) ∧
    (lengthCandidates cs L).getLast? = some (List.replicate L (cs.getD (cs.length - 1) 0)) ∧
    (∀ n, n + 1 < cs.length ^ L →
      odometerStep cs.length (indicesOfNat cs.length L n) =
        some (indicesOfNat cs.length L (n + 1))) ∧
    odometerStep cs.length (indicesOfNat cs.length L (cs.length ^ L - 1)) = none := by
  refine ⟨?_, lengthCandidates_nodup cs L hK hnd, odomEnum_pairwise_lex cs.length L hK,
    ?_, ?_, ?_, ?_⟩
  · rw [lengthCandidates, List.length_map, odomEnum_length cs.length L hK]
  · rw [lengthCandidates, List.head?_map, odomEnum_head cs.length L hK,
      Option.map_some', List.map_replicate]
  · rw [lengthCandidates, List.getLast?_map, odomEnum_getLast cs.length L hK,
      Option.map_some', List.map_replicate]
  · intro n hn
    rw [odometerStep_indicesOfNat cs.length L n hK (by omega), if_pos hn]
  · have h1 : 1 ≤ cs.length ^ L := Nat.one_le_pow _ _ hK
    rw [odometerStep_indicesOfNat cs.length L _ hK (by omega), if_neg (by omega)]

/-- Witness for C2 on the two-byte alphabet `"ab"` at length 2. -/
theorem C2_odometer_correctness_witness :
    (lengthCandidates [97, 98] 2).length = 4 ∧
    (lengthCandidates [97, 98] 2).head? = some [97, 97] ∧
    (lengthCandidates [97, 98] 2).getLast? = some [98, 98] ∧
    (lengthCandidates [97, 98] 2).Nodup := by
  have h := C2_odometer_correctness [97, 98] 2 (by decide) (by decide) (by decide)
  exact ⟨h.1, by simpa using h.2.2.2.1, by simpa using h.2.2.2.2.1, h.2.1⟩

/-- **C3** — Exhaustion: with `LengthMin = LengthMax = L ≥ 1`, a non-empty
resolved alphabet of (byte) size `K`, no cancellation and no candidate of
length `L` verifying, `charsetAttack` returns a `Result` with
`success = false`, no error, and the attempt counter advanced by exactly
`K ^ L` — one increment per enumerated candidate. -/
theorem C3_exhaustion (hmac : HashFn → List Nat → List Nat → List Nat)
    (e : Engine) (ctx : Nat → Bool) (L : Int)
    (hnc : ∀ n, ctx n = false) (hL : 1 ≤ L)
    (hmin : e.config.lengthMin = L) (hmax : e.config.lengthMax = L)
    (hne : resolveCharset e.config.charset ≠ "")
    (hnone : ∀ c ∈ lengthCandidates (strBytes (resolveCharset e.config.charset)) L.toNat,
      verifySecret hmac e c = false) :
    charsetAttack hmac e ctx =
      ⟨some { success := false,
              attempts := e.attempts +
                (strBytes (resolveCharset e.config.charset)).length ^ L.toNat },
        none,
        e.attempts + (strBytes (resolveCharset e.config.charset)).length ^ L.toNat⟩ := by
  have hK := strBytes_length_pos _ hne
  rw [charsetAttack]
  rw [if_neg hne, hmin, hmax, lengthRange_self, lengthsLoop_runCands hmac e ctx hnc]
  have hflat : charsetCandsList (strBytes (resolveCharset e.config.charset)) [L] =
      lengthCandidates (strBytes (resolveCharset e.config.charset)) L.toNat := by
    simp [charsetCandsList]
  rw [hflat, runCands_none _ _ _ hnone]
  have hlen : (lengthCandidates (strBytes (resolveCharset e.config.charset)) L.toNat).length =
      (strBytes (resolveCharset e.config.charset)).length ^ L.toNat := by
    rw [lengthCandidates, List.length_map, odomEnum_length _ _ hK]
  rw [hlen]

/-- Witness for C3: charset `"01"` (`K = 2`), length 1, no match: exactly 2
attempts and a negative result. -/
theorem C3_exhaustion_witness :
    charsetAttack hmacTest eCharset (fun _ => false) =
      ⟨some { success := false, attempts := 2 }, none, 2⟩ := by
  have h := C3_exhaustion hmacTest eCharset (fun _ => false) 1
    (fun _ => rfl) (by decide) rfl rfl (by decide) (by decide)
  exact h

/-- **C4 counterexample** — the claim as stated is false: on a cancelled
context the engine's `Attack` returns *no* Result (`nil` in Go), and the
error it returns carries the *generic* attack-failure kind
(`attack/ATTACK_EXECUTION`) at its outer level, so it is not distinguishable
from the generic attack-failure kind by the code's own kind comparison. -/
theorem C4_cancellation_counterexample :
    (Attack hmacTest eCharset (fun _ => true) none).res = none ∧
    (Attack hmacTest eCharset (fun _ => true) none).err =
      some (.jwtError "attack" "ATTACK_EXECUTION" "attack failed" .ctxCanceled) ∧
    errIsKind "attack" "ATTACK_EXECUTION"
      (.jwtError "attack" "ATTACK_EXECUTION" "attack failed" .ctxCanceled) = true := by
  exact ⟨by decide, by decide, by decide⟩

lemma smartLoop_cancelled (hmac : HashFn → List Nat → List Nat → List Nat)
    (e : Engine) (ctx : Nat → Bool) (p : String) (rest : List String) (a : Nat)
    (hc : ctx a = true) :
    smartLoop hmac e ctx (p :: rest) a =
      ⟨some { success := false, attempts := 0 }, some .ctxCanceled, a⟩ := by
  rw [smartLoop, if_pos hc]

lemma wordlistLoop_cancelled (hmac : HashFn → List Nat → List Nat → List Nat)
    (e : Engine) (ctx : Nat → Bool) (line : String) (rest : List String) (a : Nat)
    (hc : ctx a = true) :
    wordlistLoop hmac e ctx (line :: rest) a =
      ⟨some { success := false, attempts := a }, some .ctxCanceled, a⟩ := by
  rw [wordlistLoop, if_pos hc]

lemma lengthsLoop_cancelled (hmac : HashFn → List Nat → List Nat → List Nat)
    (e : Engine) (ctx : Nat → Bool) (cs : List Nat) (len : Int) (rest : List Int)
    (a : Nat) (hK : 1 ≤ cs.length) (hc : ctx a = true) :
    lengthsLoop hmac e ctx cs (len :: rest) a = ⟨none, some .ctxCanceled, a⟩ := by
  have hfuel : 1 ≤ cs.length ^ len.toNat := Nat.one_le_pow _ _ hK
  have heq : cs.length ^ len.toNat = (cs.length ^ len.toNat - 1) + 1 := by omega
  rw [lengthsLoop, bruteforceLength, heq, bfLoop, if_pos hc]

/-- **C4 amended** — when the context is already cancelled at loop entry,
every strategy stops before testing a single further candidate (the counter
is unchanged) and `Attack` returns *no* Result together with an
`attack/ATTACK_EXECUTION` error that wraps `context.Canceled`; the
cancellation is distinguishable from exhaustion (which produces a Result and
no error) and from other attack failures only through the error's cause
chain, not through its outer kind. -/
theorem C4_cancellation_amended (hmac : HashFn → List Nat → List Nat → List Nat)
    (e : Engine) (ctx : Nat → Bool) (hc : ctx e.attempts = true) :
    (e.config.smart = true → ∀ fileLines,
      Attack hmac e ctx fileLines =
        ⟨none, some (.jwtError "attack" "ATTACK_EXECUTION" "attack failed" .ctxCanceled),
          e.attempts⟩) ∧
    (e.config.smart = false → e.config.wordlist ≠ "" → ∀ line rest,
      Attack hmac e ctx (some (line :: rest)) =
        ⟨none, some (.jwtError "attack" "ATTACK_EXECUTION" "attack failed" .ctxCanceled),
          e.attempts⟩) ∧
    (e.config.smart = false → e.config.wordlist = "" →
      resolveCharset e.config.charset ≠ "" →
      e.config.lengthMin ≤ e.config.lengthMax → ∀ fileLines,
      Attack hmac e ctx fileLines =
        ⟨none, some (.jwtError "attack" "ATTACK_EXECUTION" "attack failed" .ctxCanceled),
          e.attempts⟩) ∧
    errIsCanceled (.jwtError "attack" "ATTACK_EXECUTION" "attack failed" .ctxCanceled) = true := by
  refine ⟨?_, ?_, ?_, by decide⟩
  · intro hs fileLines
    rw [Attack, if_pos hs, smartAttack]
    rcases hsp : SmartPatterns with _ | ⟨p, rest⟩
    · exact absurd hsp (by decide)
    · rw [smartLoop_cancelled hmac e ctx p rest e.attempts hc]
  · intro hs hw line rest
    rw [Attack, if_neg (by simp [hs]), if_pos hw, wordlistAttack]
    rw [wordlistLoop_cancelled hmac e ctx line rest e.attempts hc]
  · intro hs hw hres hlen fileLines
    rw [Attack, if_neg (by simp [hs]), if_neg (by simp [hw]), charsetAttack,
      if_neg hres]
    have hK := strBytes_length_pos _ hres
    rcases hr : lengthRange e.config.lengthMin e.config.lengthMax with _ | ⟨len, rest⟩
    · exfalso
      have h2 := congrArg List.length hr
      rw [lengthRange] at h2
      simp at h2
      omega
    · rw [lengthsLoop_cancelled hmac e ctx _ len rest e.attempts hK hc]

/-- Witness for C4 (amended) at a concrete charset-mode engine with an
always-cancelled context. -/
theorem C4_cancellation_amended_witness :
    Attack hmacTest eCharset (fun _ => true) none =
      ⟨none, some (.jwtError "attack" "ATTACK_EXECUTION" "attack failed" .ctxCanceled), 0⟩ := by
  have h := (C4_cancellation_amended hmacTest eCharset (fun _ => true) rfl).2.2.1
    rfl rfl (by decide) (by decide) none
  exact h

/-- **C5 counterexample** — the claim as stated is false: `New` succeeds on a
token whose payload segment `###` is not base64url-decodable (hence not
decodable JSON); only the header segment is parsed at construction. -/
theorem C5_construction_counterexample :
    b64urlDecode "###" = none ∧
    splitDot cfgBadPayload.token =
      ["eyJhbGciOiJIUzI1NiIsInR5cCI6IkpXVCJ9", "###", "sig"] ∧
    (New 4 (some cfgBadPayload)).isOk = true := by
  exact ⟨by decide, by decide, by decide⟩

/-- **C5 amended** — `New` succeeds exactly when the configuration
validates, the token splits into exactly three dot-separated segments, and
the header segment parses (base64url-decodes to JSON with a supported
`alg`); the payload and signature segments are never decoded at
construction. -/
theorem C5_construction_amended (numCPU : Nat) (cfg : Config) :
    (New numCPU (some cfg)).isOk = true ↔
      (cfg.Validate = none ∧ (splitDot cfg.token).length = 3 ∧
        (parseJWTHeader ((splitDot cfg.token).getD 0 "")).isOk = true) := by
  unfold New
  dsimp only
  rcases hval : cfg.Validate with _ | msg
  · dsimp only
    by_cases hlen : (splitDot cfg.token).length = 3
    · rw [if_neg (by omega)]
      rcases hph : parseJWTHeader ((splitDot cfg.token).getD 0 "") with err | ok
      · simp [Except.isOk, Except.toBool, hlen, hph]
      · rcases ok with ⟨alg, hf⟩
        simp [Except.isOk, Except.toBool, hlen, hph]
    · rw [if_pos (by omega)]
      simp [Except.isOk, Except.toBool, hlen]
  · simp [Except.isOk, Except.toBool]

/-- Witness for C5 (amended): the bad-payload configuration satisfies the
right-hand side, so construction succeeds. -/
theorem C5_construction_amended_witness : (New 4 (some cfgBadPayload)).isOk = true :=
  (C5_construction_amended 4 cfgBadPayload).mpr ⟨by decide, by decide, by decide⟩

/-- **C6** — Algorithm resolution: when the configuration validates, the
token has three segments and the header segment decodes (base64url + JSON)
to a header value, then `alg = HS256/HS384/HS512` constructs an engine
holding `sha256`/`sha384` (the 384-bit truncated SHA-512 variant)/`sha512`
respectively, while any other `alg` (e.g. `RS256`) makes `New` fail with an
error matching the unsupported-algorithm kind, so the search phase is never
entered. -/
theorem C6_algorithm_resolution (numCPU : Nat) (cfg : Config) (h0 p sgn : String)
    (hdr : JWTHeader) (bytes : List Nat)
    (hval : cfg.Validate = none)
    (hsplit : splitDot cfg.token = [h0, p, sgn])
    (hdec : b64urlDecode h0 = some bytes)
    (hjson : jsonUnmarshalHeader bytes = some hdr) :
    (hdr.alg = "HS256" → ∃ e, New numCPU (some cfg) = .ok e ∧
      e.hashFn = .sha256 ∧ e.algorithm = "HS256") ∧
    (hdr.alg = "HS384" → ∃ e, New numCPU (some cfg) = .ok e ∧
      e.hashFn = .sha384 ∧ e.algorithm = "HS384") ∧
    (hdr.alg = "HS512" → ∃ e, New numCPU (some cfg) = .ok e ∧
      e.hashFn = .sha512 ∧ e.algorithm = "HS512") ∧
    (hdr.alg ∉ (["HS256", "HS384", "HS512"] : List String) →
      ∃ err, New numCPU (some cfg) = .error err ∧
        errIsKind "algorithm" "UNSUPPORTED_ALGORITHM" err = true) := by
  have hget : (splitDot cfg.token).getD 0 "" = h0 := by
    rw [hsplit]
    rfl
  have hlen : ¬ (splitDot cfg.token).length ≠ 3 := by
    rw [hsplit]
    simp
  have hNew : ∀ r, parseJWTHeader h0 = r →
      New numCPU (some cfg) =
        (match r with
         | .error err =>
            .error (.jwtError "validation" "INVALID_TOKEN" "failed to parse JWT header" err)
         | .ok (algorithm, hashFn) =>
            .ok { config := adjustForPerformance numCPU cfg
                  jwtParts := splitDot cfg.token
                  algorithm := algorithm
                  hashFn := hashFn
                  attempts := 0 }) := by
    intro r hr
    unfold New
    dsimp only
    rw [hval]
    dsimp only
    rw [if_neg hlen, hget, hr]
  have hph0 : parseJWTHeader h0 =
      (if hdr.alg = AlgorithmHS256 then .ok (hdr.alg, HashFn.sha256)
       else if hdr.alg = AlgorithmHS384 then .ok (hdr.alg, HashFn.sha384)
       else if hdr.alg = AlgorithmHS512 then .ok (hdr.alg, HashFn.sha512)
       else .error (.jwtError "algorithm" "UNSUPPORTED_ALGORITHM"
         ("unsupported algorithm: " ++ hdr.alg) .nilErr)) := by
    rw [parseJWTHeader, hdec]
    dsimp only
    rw [hjson]
  simp only [AlgorithmHS256, AlgorithmHS384, AlgorithmHS512] at hph0
  refine ⟨?_, ?_, ?_, ?_⟩
  · intro halg
    rw [halg] at hph0
    rw [if_pos rfl] at hph0
    refine ⟨{ config := adjustForPerformance numCPU cfg, jwtParts := splitDot cfg.token,
              algorithm := "HS256", hashFn := .sha256, attempts := 0 }, ?_, rfl, rfl⟩
    rw [hNew _ hph0]
  · intro halg
    rw [halg] at hph0
    rw [if_neg (by decide), if_pos rfl] at hph0
    refine ⟨{ config := adjustForPerformance numCPU cfg, jwtParts := splitDot cfg.token,
              algorithm := "HS384", hashFn := .sha384, attempts := 0 }, ?_, rfl, rfl⟩
    rw [hNew _ hph0]
  · intro halg
    rw [halg] at hph0
    rw [if_neg (by decide), if_neg (by decide), if_pos rfl] at hph0
    refine ⟨{ config := adjustForPerformance numCPU cfg, jwtParts := splitDot cfg.token,
              algorithm := "HS512", hashFn := .sha512, attempts := 0 }, ?_, rfl, rfl⟩
    rw [hNew _ hph0]
  · intro halg
    simp only [List.mem_cons, List.not_mem_nil, or_false] at halg
    push_neg at halg
    rw [if_neg halg.1, if_neg halg.2.1, if_neg halg.2.2] at hph0
    refine ⟨.jwtError "validation" "INVALID_TOKEN" "failed to parse JWT header"
      (.jwtError "algorithm" "UNSUPPORTED_ALGORITHM"
        ("unsupported algorithm: " ++ hdr.alg) .nilErr), ?_, ?_⟩
    · rw [hNew _ hph0]
    · rw [errIsKind, errIsKind]
      decide

/-- Witness for C6: the `RS256` token is rejected at construction with the
unsupported-algorithm error kind in its cause chain. -/
theorem C6_algorithm_resolution_witness :
    ∃ err, New 4 (some cfgRS256) = .error err ∧
      errIsKind "algorithm" "UNSUPPORTED_ALGORITHM" err = true := by
  have h := C6_algorithm_resolution 4 cfgRS256
    (base64urlEncode (strBytes "\x7b\"alg\":\"RS256\",\"typ\":\"JWT\"\x7d")) "x" "y"
    { alg := "RS256", typ := "JWT" }
    (strBytes "\x7b\"alg\":\"RS256\",\"typ\":\"JWT\"\x7d")
    (by decide) (by decide) (by decide) (by decide)
  exact h.2.2.2 (by decide)

/-- **C7** — Dictionary strategy line handling: the loop tests exactly the
whitespace-trimmed non-blank lines (blank lines are skipped without touching
the counter), and on a file whose non-blank trimmed lines are
`wrong1, wrong2, secret, wrong3` with the token signed with `"secret"
(`wrong1`/`wrong2` do not verify), the attack succeeds with exactly 3
attempts. -/
theorem C7_dictionary_line_handling (hmac : HashFn → List Nat → List Nat → List Nat)
    (e : Engine) (ctx : Nat → Bool) (lines : List String)
    (hnc : ∀ n, ctx n = false)
    (ha : e.attempts = 0)
    (hlines : (lines.map trimSpace).filter (fun w => w ≠ "") =
      ["wrong1", "wrong2", "secret", "wrong3"])
    (hs : verifySecret hmac e (strBytes "secret") = true)
    (hw1 : verifySecret hmac e (strBytes "wrong1") = false)
    (hw2 : verifySecret hmac e (strBytes "wrong2") = false) :
    (∀ ls a, wordlistLoop hmac e ctx ls a =
      match runCands (verifySecret hmac e) (wordlistCands ls) a with
      | (some c, a') => ⟨some { success := true, secret := c, attempts := a' }, none, a'⟩
      | (none, a') => ⟨some { success := false, attempts := a' }, none, a'⟩) ∧
    wordlistAttack hmac e ctx (some lines) =
      ⟨some { success := true, secret := strBytes "secret", attempts := 3 }, none, 3⟩ := by
  refine ⟨fun ls a => wordlistLoop_runCands hmac e ctx hnc ls a, ?_⟩
  have hcands : wordlistCands lines =
      [strBytes "wrong1", strBytes "wrong2", strBytes "secret", strBytes "wrong3"] := by
    rw [wordlistCands, hlines]
    rfl
  show wordlistLoop hmac e ctx lines e.attempts = _
  rw [wordlistLoop_runCands hmac e ctx hnc, hcands, ha]
  rw [runCands, if_neg (by simp [hw1]), runCands, if_neg (by simp [hw2]),
    runCands, if_pos hs]

/-- Witness for C7 at a concrete dictionary-mode engine and file contents
with interspersed blank lines. -/
theorem C7_dictionary_line_handling_witness :
    wordlistAttack hmacTest eWordlist (fun _ => false)
        (some ["wrong1", "", "wrong2", "  ", "secret", "wrong3"]) =
      ⟨some { success := true, secret := strBytes "secret", attempts := 3 }, none, 3⟩ := by
  have h := C7_dictionary_line_handling hmacTest eWordlist (fun _ => false)
    ["wrong1", "", "wrong2", "  ", "secret", "wrong3"]
    (fun _ => rfl) rfl (by decide) (by decide) (by decide) (by decide)
  exact h.2

lemma matchOut_attempts (verify : List Nat → Bool) (cands : List (List Nat)) (a : Nat) :
    (match runCands verify cands a with
     | (some c, a') =>
        (⟨some { success := true, secret := c, attempts := a' }, none, a'⟩ : StratOut)
     | (none, a') => ⟨some { success := false, attempts := a' }, none, a'⟩).attempts =
      a + testedCount verify cands := by
  have h := runCands_attempts verify cands a
  rcases hr : runCands verify cands a with ⟨found, a'⟩
  rw [hr] at h
  rcases found with _ | c
  · simpa using h
  · simpa using h

/-- **C8** — Attempt counter invariant: the counter is zero at construction;
with no cancellation each strategy's final counter is the initial counter
plus the number of secrets actually tested (one increment per `verifySecret`
call — all candidates for the smart list, the non-blank trimmed lines for
the dictionary, the enumerated charset candidates otherwise, stopping at the
first match); the counter never decreases across `Attack` for any context;
and after `Attack` returns, `GetStats` reports the final count. -/
theorem C8_attempt_counter (hmac : HashFn → List Nat → List Nat → List Nat)
    (numCPU : Nat) (cfg : Config) (e : Engine)
    (hNew : New numCPU (some cfg) = .ok e) :
    e.attempts = 0 ∧
    (∀ ctx, (∀ n, ctx n = false) →
      (smartAttack hmac e ctx).attempts =
        e.attempts + testedCount (verifySecret hmac e) (SmartPatterns.map strBytes) ∧
      (∀ lines, (wordlistAttack hmac e ctx (some lines)).attempts =
        e.attempts + testedCount (verifySecret hmac e) (wordlistCands lines)) ∧
      (resolveCharset e.config.charset ≠ "" →
        (charsetAttack hmac e ctx).attempts =
          e.attempts + testedCount (verifySecret hmac e)
            (charsetCandsList (strBytes (resolveCharset e.config.charset))
              (lengthRange e.config.lengthMin e.config.lengthMax)))) ∧
    (∀ ctx fileLines, e.attempts ≤ (Attack hmac e ctx fileLines).attempts) ∧
    (∀ ctx fileLines,
      GetStats { e with attempts := (Attack hmac e ctx fileLines).attempts } =
        ((Attack hmac e ctx fileLines).attempts, getAttackMode e.config)) := by
  refine ⟨New_ok_attempts numCPU (some cfg) e hNew, ?_,
    fun ctx fileLines => Attack_le hmac e ctx fileLines, fun ctx fileLines => rfl⟩
  intro ctx hnc
  refine ⟨?_, ?_, ?_⟩
  · rw [smartAttack, smartLoop_runCands hmac e ctx hnc]
    exact matchOut_attempts _ _ _
  · intro lines
    show (wordlistLoop hmac e ctx lines e.attempts).attempts = _
    rw [wordlistLoop_runCands hmac e ctx hnc]
    exact matchOut_attempts _ _ _
  · intro hres
    rw [charsetAttack, if_neg hres, lengthsLoop_runCands hmac e ctx hnc]
    exact matchOut_attempts _ _ _

/-- Witness for C8 at the engine constructed from `cfgBadPayload`: zero
counter at construction, and the exact-count law at a concrete context. -/
theorem C8_attempt_counter_witness :
    eNew.attempts = 0 ∧
    (smartAttack hmacTest eNew (fun _ => false)).attempts =
      eNew.attempts + testedCount (verifySecret hmacTest eNew) (SmartPatterns.map strBytes) := by
  have h := C8_attempt_counter hmacTest 4 cfgBadPayload eNew (by rfl)
  exact ⟨h.1, (h.2.1 (fun _ => false) (fun _ => rfl)).1⟩

/-- **C9** — Charset preset resolution: the predefined table contains keys
beyond the four accepted by `Config.Validate` (`hex`, `lowercase`, `mixed`,
`printable`, `base64` among them); a key resolves to its preset alphabet,
never to the literal characters of its name; a non-key resolves to itself;
and `charsetAttack` fails with the invalid-charset error exactly when the
resolved alphabet is the empty string. -/
theorem C9_charset_preset_resolution (hmac : HashFn → List Nat → List Nat → List Nat) :
    lookupCharset "hex" = some CharsetHex ∧
    lookupCharset "lowercase" = some CharsetLowercase ∧
    lookupCharset "mixed" = some CharsetMixed ∧
    lookupCharset "printable" = some CharsetPrintableASCII ∧
    lookupCharset "base64" = some CharsetBase64 ∧
    "hex" ∉ configValidCharsets ∧
    resolveCharset "hex" = CharsetHex ∧ CharsetHex ≠ "hex" ∧
    (∀ s, lookupCharset s = none → resolveCharset s = s) ∧
    (∀ e ctx,
      (charsetAttack hmac e ctx).err =
          some (.jwtError "validation" "INVALID_CHARSET" "charset cannot be empty" .nilErr) ↔
        resolveCharset e.config.charset = "") := by
  refine ⟨by decide, by decide, by decide, by decide, by decide, by decide, by decide,
    by decide, ?_, ?_⟩
  · intro s h
    rw [resolveCharset, h]
  · intro e ctx
    constructor
    · intro h
      by_contra hres
      rw [charsetAttack, if_neg hres] at h
      rcases lengthsLoop_err hmac e ctx (strBytes (resolveCharset e.config.charset))
          (lengthRange e.config.lengthMin e.config.lengthMax) e.attempts with h0 | h0 <;>
        rw [h0] at h <;> simp at h
    · intro h
      rw [charsetAttack, if_pos h]

/-- Witness for C9: `"hex"` resolves to the preset, and an engine whose
configured charset resolves empty gets the invalid-charset error. -/
theorem C9_charset_preset_resolution_witness :
    resolveCharset "hex" = "0123456789abcdef" ∧
    (charsetAttack hmacTest
        { eCharset with config := { eCharset.config with charset := "" } }
        (fun _ => false)).err =
      some (.jwtError "validation" "INVALID_CHARSET" "charset cannot be empty" .nilErr) := by
  have h := C9_charset_preset_resolution hmacTest
  exact ⟨h.2.2.2.2.2.2.1, (h.2.2.2.2.2.2.2.2.2 _ _).mpr (by decide)⟩

/-- **C10** — Byte-level odometer: the charset strategy's alphabet is the
byte sequence of the resolved charset string (its size the string's byte
length), every generated candidate of length `L` is a list of `L` single
bytes drawn from those bytes, and a multi-byte UTF-8 character such as `é`
is enumerated as its constituent bytes (`0xC3`, `0xA9`) separately, not as
one symbol. -/
theorem C10_byte_level_odometer (s : String) (L : Nat) (hK : 1 ≤ (strBytes s).length) :
    (∀ c ∈ lengthCandidates (strBytes s) L, c.length = L ∧ ∀ b ∈ c, b ∈ strBytes s) ∧
    strBytes "é" = [195, 169] ∧
    "é".data.length = 1 ∧
    lengthCandidates (strBytes "é") 1 = [[195], [169]] := by
  refine ⟨?_, by decide, by decide, by decide⟩
  intro c hc
  rw [lengthCandidates] at hc
  obtain ⟨idx, hidx, hmap⟩ := List.mem_map.mp hc
  subst hmap
  constructor
  · rw [List.length_map]
    exact odomEnum_mem_length (strBytes s).length L hK idx hidx
  · intro b hb
    obtain ⟨i, hi, hbi⟩ := List.mem_map.mp hb
    subst hbi
    have hlt : i < (strBytes s).length :=
      odomEnum_mem_lt (strBytes s).length L hK idx hidx i hi
    rw [List.getD_eq_getElem (strBytes s) 0 hlt]
    exact List.getElem_mem hlt

/-- Witness for C10 on the one-character two-byte charset `"é"`. -/
theorem C10_byte_level_odometer_witness :
    strBytes "é" = [195, 169] ∧ lengthCandidates (strBytes "é") 1 = [[195], [169]] := by
  have h := C10_byte_level_odometer "é" 1 (by decide)
  exact ⟨h.2.1, h.2.2.2⟩

end JwtCrack
